import Mathlib

/-!
Shallow embedding of the tink-go core: the wrapped MAC primitive
(mac factory), the HMAC key manager, the XChaCha20Poly1305 AEAD and the
key-template factories, together with theorems about the claims of the
specification.

Byte strings are modelled as `List Nat`; machine integer overflow is
irrelevant except for the `maxInt` bound, which we model on a 64-bit
platform.  Calls into underlying primitives and the monitoring loggers are
recorded in an explicit event trace, so that statements about which
arguments a primitive receives are expressible.
-/

namespace Tink

/-- Byte strings, modelled as lists of naturals. -/
abbrev Bytes := List Nat

/-- tinkpb.OutputPrefixType. -/
inductive OutputPrefixType where
  | TINK
  | LEGACY
  | CRUNCHY
  | RAW
deriving DecidableEq, Repr

/-- mac factory constants: `intSize = 32 << (^uint(0) >> 63)` is 64 on a
64-bit platform and `maxInt = 1<<(intSize-1) - 1`. -/
def maxInt : Nat := 2 ^ 63 - 1

/-- A MAC primitive as consumed from external collaborators (tink.MAC):
ComputeMAC may fail (modelled by Option), VerifyMAC reports success as a
Bool. -/
structure MACPrimitive where
  computeMAC : Bytes → Option Bytes
  verifyMAC : Bytes → Bytes → Bool

/-- primitiveset.Entry for the MAC capability: key id, the constructed
primitive, the wire prefix bytes and the output prefix type.  (The Go field
name Prefix is rendered pfx.) -/
structure Entry where
  keyID : Nat
  primitive : MACPrimitive
  pfx : Bytes
  prefixType : OutputPrefixType

/-- primitiveset.PrimitiveSet for the MAC capability: the primary entry, the
prefix-indexed lookup (EntriesForPrefix returns an error when the prefix has
no bucket, modelled by none) and the list of raw entries (RawEntries,
likewise fallible). -/
structure PrimitiveSet where
  primary : Entry
  entriesForPrefix : Bytes → Option (List Entry)
  rawEntries : Option (List Entry)

/-- Trace events: a call into an underlying primitive's VerifyMAC (flagged
raw for the raw-entries loop), a monitoring success log and a monitoring
failure log. -/
inductive Event where
  | verifyCall (raw : Bool) (keyID : Nat) (mac data : Bytes)
  | log (keyID dataLen : Nat)
  | logFailure
deriving DecidableEq, Repr

/-- Errors surfaced by the wrapped MAC. -/
inductive MacError where
  | invalidMAC
  | dataTooLong
  | computeFailed
deriving DecidableEq, Repr

/-- cryptofmt.NonRawPrefixSize. -/
def NonRawPrefixSize : Nat := 5

/-- wrappedMAC.ComputeMAC: if the primary's prefix type is LEGACY the data
length is bounded and a 0x00 byte is appended before computing; the result is
the primary's prefix followed by the tag, the tag alone when the prefix is
empty.  The second component is the monitoring trace. -/
def computeMAC (m : PrimitiveSet) (data : Bytes) : Except MacError Bytes × List Event :=
  let primary := m.primary
  let checked : Except MacError Bytes :=
    if primary.prefixType = OutputPrefixType.LEGACY then
      if maxInt ≤ data.length then Except.error MacError.dataTooLong
      else Except.ok (data ++ [0])
    else Except.ok data
  match checked with
  | Except.error e => (Except.error e, [Event.logFailure])
  | Except.ok data =>
    match primary.primitive.computeMAC data with
    | none => (Except.error MacError.computeFailed, [Event.logFailure])
    | some mac =>
      let events := [Event.log primary.keyID data.length]
      if primary.pfx.length = 0 then (Except.ok mac, events)
      else (Except.ok (primary.pfx ++ mac), events)

/-- The loop of wrappedMAC.VerifyMAC over the prefix-matched entries.  The
data variable is threaded exactly as in the source: a LEGACY entry replaces
it by a copy of its current value with a 0x00 byte appended before the
attempt.  Returns an early result when an attempt succeeds or the LEGACY
length bound fails, together with the final value of the data variable and
the trace of the loop. -/
def verifyPrefixLoop (macNoPfx : Bytes) :
    List Entry → Bytes → Option (Except MacError Unit) × Bytes × List Event
  | [], data => (none, data, [])
  | entry :: rest, data =>
    if entry.prefixType = OutputPrefixType.LEGACY then
      if maxInt ≤ data.length then
        (some (Except.error MacError.dataTooLong), data, [Event.logFailure])
      else
        let data := data ++ [0]
        if entry.primitive.verifyMAC macNoPfx data then
          (some (Except.ok ()), data,
            [Event.verifyCall false entry.keyID macNoPfx data,
             Event.log entry.keyID data.length])
        else
          let r := verifyPrefixLoop macNoPfx rest data
          (r.1, r.2.1, Event.verifyCall false entry.keyID macNoPfx data :: r.2.2)
    else
      if entry.primitive.verifyMAC macNoPfx data then
        (some (Except.ok ()), data,
          [Event.verifyCall false entry.keyID macNoPfx data,
           Event.log entry.keyID data.length])
      else
        let r := verifyPrefixLoop macNoPfx rest data
        (r.1, r.2.1, Event.verifyCall false entry.keyID macNoPfx data :: r.2.2)

/-- The loop of wrappedMAC.VerifyMAC over the raw entries: each attempt uses
the full mac and the current value of the data variable. -/
def verifyRawLoop (mac data : Bytes) : List Entry → Option Unit × List Event
  | [] => (none, [])
  | entry :: rest =>
    if entry.primitive.verifyMAC mac data then
      (some (), [Event.verifyCall true entry.keyID mac data,
                 Event.log entry.keyID data.length])
    else
      let r := verifyRawLoop mac data rest
      (r.1, Event.verifyCall true entry.keyID mac data :: r.2)

/-- wrappedMAC.VerifyMAC: reject macs of at most 5 bytes, try the entries
whose bucket matches the first 5 bytes (with the stripped mac), then the raw
entries (with the full mac and the current data variable), and fail only when
every attempt fails.  The second component is the full trace. -/
def verifyMAC (m : PrimitiveSet) (mac data : Bytes) : Except MacError Unit × List Event :=
  let prefixSize := NonRawPrefixSize
  if mac.length ≤ prefixSize then (Except.error MacError.invalidMAC, [Event.logFailure])
  else
    let pfx := mac.take prefixSize
    let macNoPfx := mac.drop prefixSize
    let r1 :=
      match m.entriesForPrefix pfx with
      | none => (none, data, [])
      | some entries => verifyPrefixLoop macNoPfx entries data
    match r1.1 with
    | some res => (res, r1.2.2)
    | none =>
      let r2 :=
        match m.rawEntries with
        | none => (none, [])
        | some entries => verifyRawLoop mac r1.2.1 entries
      match r2.1 with
      | some _ => (Except.ok (), r1.2.2 ++ r2.2)
      | none => (Except.error MacError.invalidMAC, r1.2.2 ++ r2.2 ++ [Event.logFailure])

/-- A sample MAC primitive for concrete runs: the tag is a fixed header
followed by the data, verification recomputes the tag and compares. -/
def tagPrim (hdr : Bytes) : MACPrimitive :=
  { computeMAC := fun d => some (hdr ++ d)
    verifyMAC := fun m d => m == hdr ++ d }

/-- A sample MAC primitive whose verification rejects every input. -/
def rejectPrim : MACPrimitive :=
  { computeMAC := fun d => some d
    verifyMAC := fun _ _ => false }

/-- The sample primitives built by tagPrim satisfy the underlying roundtrip
contract assumed of external MACs: they accept exactly the tag they
compute. -/
theorem tagPrim_contract (hdr d t : Bytes)
    (h : (tagPrim hdr).computeMAC d = some t) :
    (tagPrim hdr).verifyMAC t d = true := by
  simp only [tagPrim, Option.some.injEq] at h
  subst h
  simp [tagPrim]

/-- Big-endian 4-byte encoding of a uint32 key id (cryptofmt). -/
def be32 (n : Nat) : Bytes :=
  [n / 2 ^ 24 % 256, n / 2 ^ 16 % 256, n / 2 ^ 8 % 256, n % 256]

/-- Output-prefix formula: TINK is 0x01 followed by the big-endian key id,
LEGACY and CRUNCHY are 0x00 followed by the big-endian key id, RAW is
empty. -/
def prefixFor : OutputPrefixType → Nat → Bytes
  | OutputPrefixType.TINK, keyID => 1 :: be32 keyID
  | OutputPrefixType.LEGACY, keyID => 0 :: be32 keyID
  | OutputPrefixType.CRUNCHY, keyID => 0 :: be32 keyID
  | OutputPrefixType.RAW, _ => []

/-- A sample primary entry with LEGACY prefix type and key id 3. -/
def legPrimary : Entry :=
  { keyID := 3
    primitive := tagPrim [9, 9, 9, 9, 9, 9]
    pfx := prefixFor OutputPrefixType.LEGACY 3
    prefixType := OutputPrefixType.LEGACY }

/-- A sample primitive set whose only entry is the LEGACY primary. -/
def psLeg : PrimitiveSet :=
  { primary := legPrimary
    entriesForPrefix := fun p => if p == legPrimary.pfx then some [legPrimary] else none
    rawEntries := none }

/-- A sample primitive set with a TINK primary and no other entries. -/
def psTink : PrimitiveSet :=
  { primary :=
      { keyID := 1
        primitive := tagPrim [7, 7, 7, 7, 7, 7]
        pfx := prefixFor OutputPrefixType.TINK 1
        prefixType := OutputPrefixType.TINK }
    entriesForPrefix := fun p =>
      if p == prefixFor OutputPrefixType.TINK 1 then
        some [{ keyID := 1
                primitive := tagPrim [7, 7, 7, 7, 7, 7]
                pfx := prefixFor OutputPrefixType.TINK 1
                prefixType := OutputPrefixType.TINK }]
      else none
    rawEntries := none }

/-- Helper: the success shape of ComputeMAC, shared by several theorems: when
the (LEGACY-adjusted) data is accepted by the primary primitive the result is
the primary's prefix followed by the tag. -/
theorem computeMAC_ok (m : PrimitiveSet) (data tag : Bytes)
    (hlen : m.primary.prefixType = OutputPrefixType.LEGACY → data.length < maxInt)
    (hcomp : m.primary.primitive.computeMAC
      (if m.primary.prefixType = OutputPrefixType.LEGACY then data ++ [0] else data) =
      some tag) :
    (computeMAC m data).1 = Except.ok (m.primary.pfx ++ tag) := by
  by_cases h : m.primary.prefixType = OutputPrefixType.LEGACY
  · rw [if_pos h] at hcomp
    simp only [computeMAC, h, if_true, if_neg (Nat.not_le.mpr (hlen h)), hcomp]
    split
    · next hz => simp [List.length_eq_zero.mp hz]
    · rfl
  · rw [if_neg h] at hcomp
    simp only [computeMAC, if_neg h, hcomp]
    split
    · next hz => simp [List.length_eq_zero.mp hz]
    · rfl

/-- C4: for every mac of at most 5 bytes and every data, wrappedMAC.VerifyMAC
returns InvalidMac and the trace is exactly one failure log: no underlying
primitive is invoked, neither on prefix-matched nor on raw entries. -/
theorem verifyMAC_short_mac_rejected (m : PrimitiveSet) (mac data : Bytes)
    (h : mac.length ≤ 5) :
    verifyMAC m mac data = (Except.error MacError.invalidMAC, [Event.logFailure]) := by
  simp [verifyMAC, NonRawPrefixSize, h]

/-- C4 witness: a 3-byte mac against a concrete primitive set. -/
theorem verifyMAC_short_mac_rejected_witness :
    verifyMAC psTink [1, 2, 3] [9] = (Except.error MacError.invalidMAC, [Event.logFailure]) :=
  verifyMAC_short_mac_rejected psTink [1, 2, 3] [9] (by decide)

/-- C3: wrappedMAC.ComputeMAC returns the primary's prefix followed by the tag
the primary primitive computes (the tag alone when the prefix is empty, since
[] ++ tag = tag); a LEGACY primary first rejects data of length at least
maxInt and otherwise appends a single 0x00 byte to the data; for non-LEGACY
primaries no data-length bound is enforced. -/
theorem computeMAC_spec (m : PrimitiveSet) (data : Bytes) :
    (m.primary.prefixType = OutputPrefixType.LEGACY → maxInt ≤ data.length →
      computeMAC m data = (Except.error MacError.dataTooLong, [Event.logFailure]))
    ∧ (m.primary.prefixType = OutputPrefixType.LEGACY → data.length < maxInt →
        ∀ tag, m.primary.primitive.computeMAC (data ++ [0]) = some tag →
          (computeMAC m data).1 = Except.ok (m.primary.pfx ++ tag))
    ∧ (m.primary.prefixType ≠ OutputPrefixType.LEGACY →
        ∀ tag, m.primary.primitive.computeMAC data = some tag →
          (computeMAC m data).1 = Except.ok (m.primary.pfx ++ tag)) := by
  refine ⟨?_, ?_, ?_⟩
  · intro h1 h2
    simp [computeMAC, h1, h2]
  · intro h1 h2 tag h3
    exact computeMAC_ok m data tag (fun _ => h2) (by rw [if_pos h1]; exact h3)
  · intro h1 tag h3
    exact computeMAC_ok m data tag (fun h => absurd h h1) (by rw [if_neg h1]; exact h3)

/-- C3 witness: the LEGACY primary of psLeg on data [5] yields the legacy
prefix followed by the tag over the suffixed data [5, 0]. -/
theorem computeMAC_spec_witness :
    (computeMAC psLeg [5]).1 = Except.ok (psLeg.primary.pfx ++ [9, 9, 9, 9, 9, 9, 5, 0]) :=
  (computeMAC_spec psLeg [5]).2.1 rfl (by decide) [9, 9, 9, 9, 9, 9, 5, 0] (by decide)

/-- A LEGACY entry with key id 2 whose primitive rejects every input. -/
def legReject : Entry :=
  { keyID := 2
    primitive := rejectPrim
    pfx := prefixFor OutputPrefixType.LEGACY 2
    prefixType := OutputPrefixType.LEGACY }

/-- A RAW entry with key id 1 whose primitive rejects every input. -/
def rawReject : Entry :=
  { keyID := 1
    primitive := rejectPrim
    pfx := []
    prefixType := OutputPrefixType.RAW }

/-- A primitive set with the RAW entry as primary and the LEGACY entry in the
bucket for its prefix 0x00 00 00 00 02. -/
def psC1 : PrimitiveSet :=
  { primary := rawReject
    entriesForPrefix := fun p => if p == legReject.pfx then some [legReject] else none
    rawEntries := some [rawReject] }

/-- Helper: when every prefix-matched entry rejects every input, the loop
returns no early result, the data variable ends with one appended 0x00 byte
per LEGACY entry, and every traced event is a non-raw call carrying the
stripped mac. -/
theorem verifyPrefixLoop_allFail (macNoPfx : Bytes) (es : List Entry) (data : Bytes)
    (hfail : ∀ e ∈ es, ∀ mm dd, e.primitive.verifyMAC mm dd = false)
    (hlen : data.length + es.length < maxInt) :
    (verifyPrefixLoop macNoPfx es data).1 = none ∧
    (verifyPrefixLoop macNoPfx es data).2.1 =
      data ++
        List.replicate (es.countP fun e => e.prefixType == OutputPrefixType.LEGACY) 0 ∧
    ∀ ev ∈ (verifyPrefixLoop macNoPfx es data).2.2,
      ∃ k dd, ev = Event.verifyCall false k macNoPfx dd := by
  induction es generalizing data with
  | nil => simp [verifyPrefixLoop]
  | cons e rest ih =>
    have hbound : ¬ maxInt ≤ data.length := by
      apply Nat.not_le.mpr
      calc data.length ≤ data.length + (e :: rest).length := Nat.le_add_right _ _
        _ < maxInt := hlen
    have hef : ∀ mm dd, e.primitive.verifyMAC mm dd = false :=
      hfail e (List.mem_cons_self e rest)
    have hrest : ∀ x ∈ rest, ∀ mm dd, x.primitive.verifyMAC mm dd = false :=
      fun x hx => hfail x (List.mem_cons_of_mem e hx)
    by_cases hLeg : e.prefixType = OutputPrefixType.LEGACY
    · have hlen1 : (data ++ [0]).length + rest.length < maxInt := by
        simpa [List.length_append, Nat.add_assoc, Nat.add_comm,
          Nat.add_left_comm] using hlen
      obtain ⟨ih1, ih2, ih3⟩ := ih (data ++ [0]) hrest hlen1
      refine ⟨?_, ?_, ?_⟩
      · simp [verifyPrefixLoop, hLeg, hbound, hef, ih1]
      · simp only [verifyPrefixLoop, if_pos hLeg, if_neg hbound, hef,
          Bool.false_eq_true, if_false, ih2]
        rw [List.countP_cons_of_pos _ _ (by simp [hLeg])]
        simp [List.replicate_succ, List.append_assoc]
      · intro ev hev
        simp only [verifyPrefixLoop, if_pos hLeg, if_neg hbound, hef,
          Bool.false_eq_true, if_false, List.mem_cons] at hev
        rcases hev with rfl | hev
        · exact ⟨e.keyID, data ++ [0], rfl⟩
        · exact ih3 ev hev
    · have hlen1 : data.length + rest.length < maxInt := by
        calc data.length + rest.length ≤ data.length + (e :: rest).length := by
              simp [Nat.add_le_add_left, Nat.le_succ]
          _ < maxInt := hlen
      obtain ⟨ih1, ih2, ih3⟩ := ih data hrest hlen1
      refine ⟨?_, ?_, ?_⟩
      · simp [verifyPrefixLoop, hLeg, hef, ih1]
      · simp only [verifyPrefixLoop, if_neg hLeg, hef, Bool.false_eq_true,
          if_false, ih2]
        rw [List.countP_cons_of_neg _ _ (by simp [hLeg])]
      · intro ev hev
        simp only [verifyPrefixLoop, if_neg hLeg, hef, Bool.false_eq_true,
          if_false, List.mem_cons] at hev
        rcases hev with rfl | hev
        · exact ⟨e.keyID, data, rfl⟩
        · exact ih3 ev hev

/-- Helper: every call traced by the raw-entries loop is flagged raw and
carries the full mac and the current data variable unchanged. -/
theorem verifyRawLoop_calls (mac data : Bytes) (rs : List Entry) :
    ∀ r k mm dd, Event.verifyCall r k mm dd ∈ (verifyRawLoop mac data rs).2 →
      r = true ∧ mm = mac ∧ dd = data := by
  induction rs with
  | nil => simp [verifyRawLoop]
  | cons e rest ih =>
    intro r k mm dd hmem
    by_cases hv : e.primitive.verifyMAC mac data
    · simp only [verifyRawLoop, if_pos hv, List.mem_cons, List.not_mem_nil,
        or_false] at hmem
      rcases hmem with h | h
      · cases h
        exact ⟨rfl, rfl, rfl⟩
      · cases h
    · simp only [verifyRawLoop, hv, Bool.false_eq_true, if_false,
        List.mem_cons] at hmem
      rcases hmem with h | h
      · cases h
        exact ⟨rfl, rfl, rfl⟩
      · exact ih r k mm dd h

/-- C1 counterexample: with the LEGACY entry (key id 2) in the bucket of the
mac's first five bytes and a raw entry (key id 1), the failed LEGACY attempt
replaces the data variable by [5, 0], and the raw attempt is then invoked
with the full original mac but the modified data [5, 0], not the original
[5]: the claim that every raw attempt uses the unmodified original data and
that legacy copies are recomputed from the original input is false. -/
theorem verifyMAC_raw_mutated_data_cex :
    (verifyMAC psC1 [0, 0, 0, 0, 2, 7, 7] [5]).2 =
      [Event.verifyCall false 2 [7, 7] [5, 0],
       Event.verifyCall true 1 [0, 0, 0, 0, 2, 7, 7] [5, 0],
       Event.logFailure] := by
  decide

/-- C1 (amended): every raw attempt receives the full original mac, but the
data it receives is the current value of the data variable, which carries one
appended 0x00 byte for every LEGACY prefix-matched entry tried and failed
earlier in the same call; prefix-matched attempts receive the stripped
mac. -/
theorem verifyMAC_attempt_arguments (m : PrimitiveSet) (mac data : Bytes)
    (hm : 5 < mac.length) (es : List Entry)
    (hes : m.entriesForPrefix (mac.take 5) = some es)
    (hfail : ∀ e ∈ es, ∀ mm dd, e.primitive.verifyMAC mm dd = false)
    (hlen : data.length + es.length < maxInt) :
    (∀ k mm dd, Event.verifyCall true k mm dd ∈ (verifyMAC m mac data).2 →
      mm = mac ∧
      dd = data ++
        List.replicate (es.countP fun e => e.prefixType == OutputPrefixType.LEGACY) 0)
    ∧ ∀ k mm dd, Event.verifyCall false k mm dd ∈ (verifyMAC m mac data).2 →
        mm = mac.drop 5 := by
  have hm5 : ¬ mac.length ≤ 5 := Nat.not_le.mpr hm
  obtain ⟨h1, h2, h3⟩ := verifyPrefixLoop_allFail (mac.drop 5) es data hfail hlen
  constructor
  · intro k mm dd hmem
    simp only [verifyMAC, NonRawPrefixSize, if_neg hm5, hes, h1, h2] at hmem
    rcases hre : m.rawEntries with _ | rs
    · rw [hre] at hmem
      simp only [List.append_nil, List.mem_append, List.mem_singleton] at hmem
      rcases hmem with hmem | hmem
      · obtain ⟨k2, dd2, heq⟩ := h3 _ hmem
        simp at heq
      · cases hmem
    · rw [hre] at hmem
      rcases hr2 : (verifyRawLoop mac
          (data ++ List.replicate
            (es.countP fun e => e.prefixType == OutputPrefixType.LEGACY) 0) rs).1
        with _ | u
      · rw [hr2] at hmem
        simp only [List.mem_append, List.mem_singleton] at hmem
        rcases hmem with (hmem | hmem) | hmem
        · obtain ⟨k2, dd2, heq⟩ := h3 _ hmem
          simp at heq
        · obtain ⟨_, hmac, hdata⟩ := verifyRawLoop_calls _ _ rs _ _ _ _ hmem
          exact ⟨hmac, hdata⟩
        · cases hmem
      · rw [hr2] at hmem
        simp only [List.mem_append] at hmem
        rcases hmem with hmem | hmem
        · obtain ⟨k2, dd2, heq⟩ := h3 _ hmem
          simp at heq
        · obtain ⟨_, hmac, hdata⟩ := verifyRawLoop_calls _ _ rs _ _ _ _ hmem
          exact ⟨hmac, hdata⟩
  · intro k mm dd hmem
    simp only [verifyMAC, NonRawPrefixSize, if_neg hm5, hes, h1, h2] at hmem
    rcases hre : m.rawEntries with _ | rs
    · rw [hre] at hmem
      simp only [List.append_nil, List.mem_append, List.mem_singleton] at hmem
      rcases hmem with hmem | hmem
      · obtain ⟨k2, dd2, heq⟩ := h3 _ hmem
        cases heq
        rfl
      · cases hmem
    · rw [hre] at hmem
      rcases hr2 : (verifyRawLoop mac
          (data ++ List.replicate
            (es.countP fun e => e.prefixType == OutputPrefixType.LEGACY) 0) rs).1
        with _ | u
      · rw [hr2] at hmem
        simp only [List.mem_append, List.mem_singleton] at hmem
        rcases hmem with (hmem | hmem) | hmem
        · obtain ⟨k2, dd2, heq⟩ := h3 _ hmem
          cases heq
          rfl
        · obtain ⟨hraw, _, _⟩ := verifyRawLoop_calls _ _ rs _ _ _ _ hmem
          cases hraw
        · cases hmem
      · rw [hr2] at hmem
        simp only [List.mem_append] at hmem
        rcases hmem with hmem | hmem
        · obtain ⟨k2, dd2, heq⟩ := h3 _ hmem
          cases heq
          rfl
        · obtain ⟨hraw, _, _⟩ := verifyRawLoop_calls _ _ rs _ _ _ _ hmem
          cases hraw

/-- C1 witness: the amended theorem applied to psC1, the mac whose first five
bytes match the LEGACY entry, and data [5]; the recorded raw attempt carries
the full mac and the data with the one appended 0x00 byte. -/
theorem verifyMAC_attempt_arguments_witness :
    ([0, 0, 0, 0, 2, 7, 7] : Bytes) = [0, 0, 0, 0, 2, 7, 7] ∧
    ([5, 0] : Bytes) = [5] ++
      List.replicate
        ([legReject].countP fun e => e.prefixType == OutputPrefixType.LEGACY) 0 :=
  (verifyMAC_attempt_arguments psC1 [0, 0, 0, 0, 2, 7, 7] [5] (by decide) [legReject]
      rfl
      (fun e he mm dd => by rw [List.mem_singleton.mp he]; rfl)
      (by decide)).1
    1 [0, 0, 0, 0, 2, 7, 7] [5, 0] (by decide)

/-- Helper: the non-RAW output prefixes are 5 bytes long. -/
theorem prefixFor_length_nonraw (t : OutputPrefixType) (keyID : Nat)
    (h : t ≠ OutputPrefixType.RAW) : (prefixFor t keyID).length = 5 := by
  cases t <;> simp [prefixFor, be32] at h ⊢

/-- Helper: over a bucket without LEGACY entries the prefix loop leaves the
data variable unchanged, and its early result is either absent or a
success. -/
theorem verifyPrefixLoop_noLegacy (macNoPfx : Bytes) (es : List Entry) (data : Bytes)
    (h : ∀ e ∈ es, e.prefixType ≠ OutputPrefixType.LEGACY) :
    (verifyPrefixLoop macNoPfx es data).2.1 = data ∧
    ((verifyPrefixLoop macNoPfx es data).1 = none ∨
      (verifyPrefixLoop macNoPfx es data).1 = some (Except.ok ())) := by
  induction es with
  | nil => simp [verifyPrefixLoop]
  | cons e rest ih =>
    have he : e.prefixType ≠ OutputPrefixType.LEGACY := h e (List.mem_cons_self e rest)
    have hrest := ih fun x hx => h x (List.mem_cons_of_mem e hx)
    by_cases hv : e.primitive.verifyMAC macNoPfx data
    · simp [verifyPrefixLoop, if_neg he, hv]
    · simp only [verifyPrefixLoop, if_neg he, hv, Bool.false_eq_true, if_false]
      exact hrest

/-- Helper: the raw loop succeeds as soon as some member verifies the full
mac against the current data. -/
theorem verifyRawLoop_mem_success (mac data : Bytes) (rs : List Entry) (e : Entry)
    (he : e ∈ rs) (hv : e.primitive.verifyMAC mac data = true) :
    (verifyRawLoop mac data rs).1 = some () := by
  induction rs with
  | nil => cases he
  | cons r rest ih =>
    by_cases hr : r.primitive.verifyMAC mac data
    · simp [verifyRawLoop, hr]
    · rcases List.mem_cons.mp he with rfl | hmem
      · exact absurd hv hr
      · simp only [verifyRawLoop, hr, Bool.false_eq_true, if_false]
        exact ih hmem

/-- A RAW entry (key id 1) whose tags are the fixed six bytes
0x00 00 00 00 02 07 followed by the data: on data [5] such a tag begins with
the five-byte LEGACY prefix of key id 2. -/
def rawColl : Entry :=
  { keyID := 1
    primitive := tagPrim [0, 0, 0, 0, 2, 7]
    pfx := []
    prefixType := OutputPrefixType.RAW }

/-- A LEGACY entry (key id 2) with an honest exact-recomputation primitive. -/
def legColl : Entry :=
  { keyID := 2
    primitive := tagPrim [9, 9, 9, 9, 9, 9]
    pfx := prefixFor OutputPrefixType.LEGACY 2
    prefixType := OutputPrefixType.LEGACY }

/-- A well-formed primitive set: RAW primary rawColl, LEGACY entry legColl in
the bucket of its prefix, distinct key ids, prefixes per the formula. -/
def psC2 : PrimitiveSet :=
  { primary := rawColl
    entriesForPrefix := fun p => if p == legColl.pfx then some [legColl] else none
    rawEntries := some [rawColl] }

/-- C2 counterexample: both primitives of psC2 satisfy the roundtrip contract
verify (compute d) d (they recompute the tag exactly; see tagPrim), the set is
well formed, the primary is an enabled RAW key, yet the wrapped primitive
fails the roundtrip on data [5]: the computed mac starts with legColl's
LEGACY prefix, the failed LEGACY attempt appends 0x00 to the data variable,
and the raw attempt then compares against the modified data [5, 0]. -/
theorem roundtrip_raw_legacy_collision_cex :
    (computeMAC psC2 [5]).1 = Except.ok [0, 0, 0, 0, 2, 7, 5] ∧
    (verifyMAC psC2 [0, 0, 0, 0, 2, 7, 5] [5]).1 = Except.error MacError.invalidMAC :=
  ⟨rfl, rfl⟩

/-- C2 (amended): VerifyMAC (ComputeMAC data) data succeeds for every primary
whose prefix follows the output-prefix formula, whose bucket holds exactly
the primary when it is non-RAW, and which is among the raw entries when it is
RAW, assuming the underlying primitive accepts its own tag and tags are
longer than 5 bytes — with the correction that for a RAW primary no LEGACY
entry may sit in the bucket selected by the tag's first five bytes (otherwise
the failed LEGACY attempt mutates the data variable and the raw attempt
rejects, see the counterexample). -/
theorem computeMAC_verifyMAC_roundtrip (m : PrimitiveSet) (data tag : Bytes)
    (hpfx : m.primary.pfx = prefixFor m.primary.prefixType m.primary.keyID)
    (hlen : data.length < maxInt)
    (hcomp : m.primary.primitive.computeMAC
      (if m.primary.prefixType = OutputPrefixType.LEGACY then data ++ [0] else data) =
      some tag)
    (hver : m.primary.primitive.verifyMAC tag
      (if m.primary.prefixType = OutputPrefixType.LEGACY then data ++ [0] else data) =
      true)
    (htag : 5 < tag.length)
    (hbucket : m.primary.prefixType ≠ OutputPrefixType.RAW →
      m.entriesForPrefix m.primary.pfx = some [m.primary])
    (hraws : m.primary.prefixType = OutputPrefixType.RAW →
      ∃ rs, m.rawEntries = some rs ∧ m.primary ∈ rs)
    (hnoleg : m.primary.prefixType = OutputPrefixType.RAW → ∀ es,
      m.entriesForPrefix (tag.take 5) = some es →
      ∀ e ∈ es, e.prefixType ≠ OutputPrefixType.LEGACY) :
    (computeMAC m data).1 = Except.ok (m.primary.pfx ++ tag) ∧
    (verifyMAC m (m.primary.pfx ++ tag) data).1 = Except.ok () := by
  refine ⟨computeMAC_ok m data tag (fun _ => hlen) hcomp, ?_⟩
  by_cases hRaw : m.primary.prefixType = OutputPrefixType.RAW
  · have hp0 : m.primary.pfx = [] := by rw [hpfx, hRaw]; rfl
    have hneq : m.primary.prefixType ≠ OutputPrefixType.LEGACY := by simp [hRaw]
    have hverRaw : m.primary.primitive.verifyMAC tag data = true := by
      rwa [if_neg hneq] at hver
    rw [hp0, List.nil_append]
    have hm5 : ¬ tag.length ≤ 5 := Nat.not_le.mpr htag
    obtain ⟨rs, hrs, hmem⟩ := hraws hRaw
    have hsucc := verifyRawLoop_mem_success tag data rs m.primary hmem hverRaw
    rcases hb : m.entriesForPrefix (tag.take 5) with _ | es
    · simp only [verifyMAC, NonRawPrefixSize, if_neg hm5, hb, hrs]
      simp [hsucc]
    · have hnl := hnoleg hRaw es hb
      obtain ⟨hdd, hres⟩ := verifyPrefixLoop_noLegacy (tag.drop 5) es data hnl
      rcases hres with hres | hres
      · simp only [verifyMAC, NonRawPrefixSize, if_neg hm5, hb, hres, hdd, hrs]
        simp [hsucc]
      · simp [verifyMAC, NonRawPrefixSize, if_neg hm5, hb, hres]
  · have hp5 : m.primary.pfx.length = 5 := by
      rw [hpfx]; exact prefixFor_length_nonraw _ _ hRaw
    have hm5 : ¬ (m.primary.pfx ++ tag).length ≤ 5 := by
      rw [List.length_append, hp5]
      omega
    have htake : (m.primary.pfx ++ tag).take 5 = m.primary.pfx := by
      rw [← hp5]; exact List.take_left _ _
    have hdrop : (m.primary.pfx ++ tag).drop 5 = tag := by
      rw [← hp5]; exact List.drop_left _ _
    have hbuck := hbucket hRaw
    simp only [verifyMAC, NonRawPrefixSize, if_neg hm5, htake, hdrop, hbuck]
    by_cases hLeg : m.primary.prefixType = OutputPrefixType.LEGACY
    · rw [if_pos hLeg] at hver
      simp [verifyPrefixLoop, hLeg, Nat.not_le.mpr hlen, hver]
    · rw [if_neg hLeg] at hver
      simp [verifyPrefixLoop, hLeg, hver]

/-- C2 witness: the roundtrip theorem applied to the LEGACY-primary set psLeg
on data [5], with the six-byte tag header yielding an eight-byte tag. -/
theorem computeMAC_verifyMAC_roundtrip_witness :
    (computeMAC psLeg [5]).1 =
      Except.ok (psLeg.primary.pfx ++ [9, 9, 9, 9, 9, 9, 5, 0]) ∧
    (verifyMAC psLeg (psLeg.primary.pfx ++ [9, 9, 9, 9, 9, 9, 5, 0]) [5]).1 =
      Except.ok () :=
  computeMAC_verifyMAC_roundtrip psLeg [5] [9, 9, 9, 9, 9, 9, 5, 0]
    rfl (by decide) (by decide) (by decide) (by decide)
    (fun _ => rfl)
    (fun h => absurd h (by decide))
    (fun h => absurd h (by decide))

/-! The HMAC key manager (hmac_key_manager.go). Protobuf parsing is external
library code and is abstracted as an unmarshal function; the pseudorandom
reader of DeriveKey is modelled as the byte stream it would yield. -/

/-- commonpb.HashType, with the proto enum's members. -/
inductive HashType where
  | UNKNOWN_HASH
  | SHA1
  | SHA384
  | SHA256
  | SHA512
  | SHA224
deriving DecidableEq, Repr

/-- hmacpb.HmacParams (nil params read as zero values by the proto getters,
so the fields are total). -/
structure HmacParams where
  hash : HashType
  tagSize : Nat
deriving DecidableEq, Repr

/-- hmacpb.HmacKey. -/
structure HmacKey where
  version : Nat
  params : HmacParams
  keyValue : Bytes
deriving DecidableEq, Repr

/-- hmacpb.HmacKeyFormat. -/
structure HmacKeyFormat where
  params : HmacParams
  keySize : Nat
  version : Nat
deriving DecidableEq, Repr

/-- hmacKeyVersion = 0. -/
def hmacKeyVersion : Nat := 0

/-- Modelled from the spec: the digest sizes of the supported hashes (the
hash implementations are external collaborators, not in src). -/
def hashDigestSize : HashType → Option Nat
  | HashType.SHA1 => some 20
  | HashType.SHA224 => some 28
  | HashType.SHA256 => some 32
  | HashType.SHA384 => some 48
  | HashType.SHA512 => some 64
  | HashType.UNKNOWN_HASH => none

/-- Modelled from the spec: mac/subtle's ValidateHMACParams is not under src;
it "enforces minimum key size and tag-size bounds per hash": an InvalidKey
when key bytes are shorter than the minimum (16) or the tag size is below the
floor (10) or above the digest size; SHA256 with tag size 16 and key size 32
is valid. -/
def ValidateHMACParams (hash : HashType) (keySize tagSize : Nat) : Bool :=
  match hashDigestSize hash with
  | none => false
  | some digestSize =>
    if digestSize < tagSize then false
    else if tagSize < 10 then false
    else if keySize < 16 then false
    else true

/-- Modelled from the spec: keyset.ValidateKeyVersion is not under src;
"Version is 0; rejects any higher value". -/
def ValidateKeyVersion (version maxExpected : Nat) : Bool :=
  version ≤ maxExpected

/-- The constructed HMAC primitive (subtle package), modelled by its
parameters and key. -/
structure HMAC where
  hash : HashType
  key : Bytes
  tagSize : Nat
deriving DecidableEq, Repr

/-- Modelled from the spec: subtle.NewHMAC is not under src; it performs the
same parameter validation and constructs the primitive. -/
def NewHMAC (hash : HashType) (key : Bytes) (tagSize : Nat) : Option HMAC :=
  if ValidateHMACParams hash key.length tagSize then some ⟨hash, key, tagSize⟩
  else none

/-- Error kinds surfaced by the key manager. -/
inductive KMError where
  | invalidKey
  | invalidVersion
  | invalidParams
  | invalidKeyFormat
  | shortEntropy
deriving DecidableEq, Repr

/-- hmacKeyManager.validateKey: version check, then ValidateHMACParams over
the key's hash, the length of its key bytes and its tag size. -/
def hmacKeyManager.validateKey (key : HmacKey) : Except KMError Unit :=
  if ¬ ValidateKeyVersion key.version hmacKeyVersion then
    Except.error KMError.invalidVersion
  else if ¬ ValidateHMACParams key.params.hash key.keyValue.length key.params.tagSize then
    Except.error KMError.invalidParams
  else Except.ok ()

/-- hmacKeyManager.validateKeyFormat: ValidateHMACParams over the format's
hash, declared key size and tag size (no version check). -/
def hmacKeyManager.validateKeyFormat (format : HmacKeyFormat) : Bool :=
  ValidateHMACParams format.params.hash format.keySize format.params.tagSize

/-- hmacKeyManager.Primitive: reject empty input, parse, validate the key,
construct the HMAC primitive. -/
def hmacKeyManager.Primitive (unmarshalKey : Bytes → Option HmacKey)
    (serializedKey : Bytes) : Except KMError HMAC :=
  if serializedKey.length = 0 then Except.error KMError.invalidKey
  else
    match unmarshalKey serializedKey with
    | none => Except.error KMError.invalidKey
    | some key =>
      match hmacKeyManager.validateKey key with
      | Except.error e => Except.error e
      | Except.ok () =>
        match NewHMAC key.params.hash key.keyValue key.params.tagSize with
        | none => Except.error KMError.invalidParams
        | some h => Except.ok h

/-- hmacKeyManager.NewKey: reject empty input, parse, validate the format,
draw keySize fresh random bytes (the random source is a parameter), return a
version-0 key. -/
def hmacKeyManager.NewKey (unmarshalFormat : Bytes → Option HmacKeyFormat)
    (random : Nat → Bytes) (serializedKeyFormat : Bytes) : Except KMError HmacKey :=
  if serializedKeyFormat.length = 0 then Except.error KMError.invalidKeyFormat
  else
    match unmarshalFormat serializedKeyFormat with
    | none => Except.error KMError.invalidKeyFormat
    | some keyFormat =>
      if ¬ hmacKeyManager.validateKeyFormat keyFormat then
        Except.error KMError.invalidKeyFormat
      else
        Except.ok { version := hmacKeyVersion, params := keyFormat.params,
                    keyValue := random keyFormat.keySize }

/-- hmacKeyManager.DeriveKey: like NewKey but additionally validates the
format's version against hmacKeyVersion and reads exactly keySize bytes from
the pseudorandom source (io.ReadFull fails when the stream is shorter). -/
def hmacKeyManager.DeriveKey (unmarshalFormat : Bytes → Option HmacKeyFormat)
    (serializedKeyFormat : Bytes) (pseudorandomness : Bytes) : Except KMError HmacKey :=
  if serializedKeyFormat.length = 0 then Except.error KMError.invalidKeyFormat
  else
    match unmarshalFormat serializedKeyFormat with
    | none => Except.error KMError.invalidKeyFormat
    | some keyFormat =>
      if ¬ hmacKeyManager.validateKeyFormat keyFormat then
        Except.error KMError.invalidKeyFormat
      else if ¬ ValidateKeyVersion keyFormat.version hmacKeyVersion then
        Except.error KMError.invalidVersion
      else if pseudorandomness.length < keyFormat.keySize then
        Except.error KMError.shortEntropy
      else
        Except.ok { version := hmacKeyVersion, params := keyFormat.params,
                    keyValue := pseudorandomness.take keyFormat.keySize }

/-- A valid sample HMAC key: SHA256, tag size 16, 32-byte key, version 0. -/
def sampleKey : HmacKey :=
  { version := 0
    params := { hash := HashType.SHA256, tagSize := 16 }
    keyValue := List.replicate 32 1 }

/-- A sample HMAC key format with SHA256, tag size 16, key size 32 and the
given version. -/
def sampleFormat (v : Nat) : HmacKeyFormat :=
  { params := { hash := HashType.SHA256, tagSize := 16 }, keySize := 32, version := v }

/-- C5: hmacKeyManager.Primitive returns an error exactly when the serialized
key is empty, does not parse, carries a version above 0, or has parameters
rejected by ValidateHMACParams; otherwise it returns the constructed HMAC
primitive. -/
theorem hmacKeyManager_Primitive_spec (unmarshalKey : Bytes → Option HmacKey)
    (sk : Bytes) :
    ((∃ e, hmacKeyManager.Primitive unmarshalKey sk = Except.error e) ↔
      sk.length = 0 ∨ unmarshalKey sk = none ∨
        ∃ key, unmarshalKey sk = some key ∧
          (hmacKeyVersion < key.version ∨
            ValidateHMACParams key.params.hash key.keyValue.length key.params.tagSize
              = false))
    ∧ ∀ key, sk.length ≠ 0 → unmarshalKey sk = some key →
        key.version ≤ hmacKeyVersion →
        ValidateHMACParams key.params.hash key.keyValue.length key.params.tagSize
          = true →
        hmacKeyManager.Primitive unmarshalKey sk =
          Except.ok { hash := key.params.hash, key := key.keyValue,
                      tagSize := key.params.tagSize } := by
  constructor
  · constructor
    · rintro ⟨e, he⟩
      by_cases h0 : sk.length = 0
      · exact Or.inl h0
      rcases hu : unmarshalKey sk with _ | key
      · exact Or.inr (Or.inl rfl)
      refine Or.inr (Or.inr ⟨key, rfl, ?_⟩)
      by_cases hv : key.version ≤ hmacKeyVersion
      · by_cases hp : ValidateHMACParams key.params.hash key.keyValue.length
            key.params.tagSize = true
        · exfalso
          simp [hmacKeyManager.Primitive, h0, hu, hmacKeyManager.validateKey,
            ValidateKeyVersion, hv, hp, NewHMAC] at he
        · exact Or.inr (by simpa using hp)
      · exact Or.inl (Nat.not_le.mp hv)
    · rintro (h0 | hu | ⟨key, hu, hbad⟩)
      · exact ⟨KMError.invalidKey, by simp [hmacKeyManager.Primitive, h0]⟩
      all_goals by_cases h0 : sk.length = 0
      · exact ⟨KMError.invalidKey, by simp [hmacKeyManager.Primitive, h0]⟩
      · exact ⟨KMError.invalidKey, by simp [hmacKeyManager.Primitive, h0, hu]⟩
      · exact ⟨KMError.invalidKey, by simp [hmacKeyManager.Primitive, h0]⟩
      · rcases hbad with hver | hpar
        · refine ⟨KMError.invalidVersion, ?_⟩
          simp [hmacKeyManager.Primitive, h0, hu, hmacKeyManager.validateKey,
            ValidateKeyVersion, Nat.not_le.mpr hver]
        · by_cases hv : key.version ≤ hmacKeyVersion
          · refine ⟨KMError.invalidParams, ?_⟩
            simp [hmacKeyManager.Primitive, h0, hu, hmacKeyManager.validateKey,
              ValidateKeyVersion, hv, hpar]
          · refine ⟨KMError.invalidVersion, ?_⟩
            simp [hmacKeyManager.Primitive, h0, hu, hmacKeyManager.validateKey,
              ValidateKeyVersion, hv]
  · intro key h0 hu hv hp
    simp [hmacKeyManager.Primitive, h0, hu, hmacKeyManager.validateKey,
      ValidateKeyVersion, hv, hp, NewHMAC]

/-- C5 witness: a parsing function returning the valid sample key on the
nonempty input [1] yields the constructed primitive. -/
theorem hmacKeyManager_Primitive_spec_witness :
    hmacKeyManager.Primitive (fun _ => some sampleKey) [1] =
      Except.ok { hash := HashType.SHA256, key := List.replicate 32 1, tagSize := 16 } :=
  (hmacKeyManager_Primitive_spec (fun _ => some sampleKey) [1]).2 sampleKey
    (by decide) rfl (by decide) (by decide)

/-- C6: DeriveKey returns a version-0 key whose keyValue is exactly the first
keySize bytes of the pseudorandom source, fails with ShortEntropy when the
source yields fewer than keySize bytes, and two sources that agree on their
first keySize bytes derive identical keys. -/
theorem hmacKeyManager_DeriveKey_spec (unmarshalFormat : Bytes → Option HmacKeyFormat)
    (sf : Bytes) (format : HmacKeyFormat) (prng : Bytes)
    (hne : sf.length ≠ 0)
    (hum : unmarshalFormat sf = some format)
    (hvf : hmacKeyManager.validateKeyFormat format = true)
    (hver : format.version ≤ hmacKeyVersion) :
    (format.keySize ≤ prng.length →
      hmacKeyManager.DeriveKey unmarshalFormat sf prng =
        Except.ok { version := hmacKeyVersion, params := format.params,
                    keyValue := prng.take format.keySize })
    ∧ (prng.length < format.keySize →
        hmacKeyManager.DeriveKey unmarshalFormat sf prng =
          Except.error KMError.shortEntropy)
    ∧ ∀ prng2 : Bytes, format.keySize ≤ prng.length → format.keySize ≤ prng2.length →
        prng.take format.keySize = prng2.take format.keySize →
        hmacKeyManager.DeriveKey unmarshalFormat sf prng =
          hmacKeyManager.DeriveKey unmarshalFormat sf prng2 := by
  refine ⟨?_, ?_, ?_⟩
  · intro hlen
    simp [hmacKeyManager.DeriveKey, hne, hum, hvf, ValidateKeyVersion, hver,
      Nat.not_lt.mpr hlen]
  · intro hlen
    simp [hmacKeyManager.DeriveKey, hne, hum, hvf, ValidateKeyVersion, hver, hlen]
  · intro prng2 hlen hlen2 hagree
    simp [hmacKeyManager.DeriveKey, hne, hum, hvf, ValidateKeyVersion, hver,
      Nat.not_lt.mpr hlen, Nat.not_lt.mpr hlen2, hagree]

/-- C6 witness: deriving with a 40-byte stream and key size 32 takes the
first 32 bytes. -/
theorem hmacKeyManager_DeriveKey_spec_witness :
    hmacKeyManager.DeriveKey (fun _ => some (sampleFormat 0)) [1]
      (List.replicate 40 7) =
      Except.ok { version := hmacKeyVersion, params := (sampleFormat 0).params,
                  keyValue := (List.replicate 40 7).take 32 } :=
  (hmacKeyManager_DeriveKey_spec (fun _ => some (sampleFormat 0)) [1]
    (sampleFormat 0) (List.replicate 40 7) (by decide) rfl (by decide)
    (by decide)).1 (by decide)

/-- C9: NewKey does not validate the format's version: a parsed format with
version above 0 but otherwise valid parameters succeeds in NewKey, while the
same format is rejected by DeriveKey with an invalid-version error, whatever
pseudorandomness is offered. -/
theorem newKey_skips_version_check (unmarshalFormat : Bytes → Option HmacKeyFormat)
    (random : Nat → Bytes) (sf : Bytes) (format : HmacKeyFormat) (prng : Bytes)
    (hne : sf.length ≠ 0)
    (hum : unmarshalFormat sf = some format)
    (hvf : hmacKeyManager.validateKeyFormat format = true)
    (hver : 0 < format.version) :
    hmacKeyManager.NewKey unmarshalFormat random sf =
      Except.ok { version := hmacKeyVersion, params := format.params,
                  keyValue := random format.keySize } ∧
    hmacKeyManager.DeriveKey unmarshalFormat sf prng =
      Except.error KMError.invalidVersion := by
  constructor
  · simp [hmacKeyManager.NewKey, hne, hum, hvf]
  · have : ¬ format.version ≤ hmacKeyVersion := by
      simpa [hmacKeyVersion] using Nat.not_le.mpr hver
    simp [hmacKeyManager.DeriveKey, hne, hum, hvf, ValidateKeyVersion, this]

/-- C9 witness: a format with version 1 and valid SHA256 parameters passes
NewKey and is rejected by DeriveKey. -/
theorem newKey_skips_version_check_witness :
    hmacKeyManager.NewKey (fun _ => some (sampleFormat 1))
      (fun n => List.replicate n 4) [1] =
      Except.ok { version := hmacKeyVersion, params := (sampleFormat 1).params,
                  keyValue := List.replicate 32 4 } ∧
    hmacKeyManager.DeriveKey (fun _ => some (sampleFormat 1)) [1]
      (List.replicate 40 7) =
      Except.error KMError.invalidVersion :=
  newKey_skips_version_check (fun _ => some (sampleFormat 1))
    (fun n => List.replicate n 4) [1] (sampleFormat 1) (List.replicate 40 7)
    (by decide) rfl (by decide) (by decide)

/-! XChaCha20Poly1305 (aead/subtle/xchacha20poly1305.go). The underlying
chacha20poly1305 cipher is an external collaborator, modelled as a
key-indexed family of Seal/Open functions; NewX fails exactly on keys that
are not KeySize bytes, and random.GetRandomBytes(NonceSizeX) is modelled as
a nonce parameter. -/

/-- chacha20poly1305.KeySize. -/
def chacha20poly1305KeySize : Nat := 32

/-- chacha20poly1305.NonceSizeX. -/
def chacha20poly1305NonceSizeX : Nat := 24

/-- poly1305TagSize (aead/subtle package constant, the cipher's Overhead). -/
def poly1305TagSize : Nat := 16

/-- The cipher.AEAD built by chacha20poly1305.NewX for a key: Seal takes
nonce, plaintext and associated data and returns the raw ciphertext; Open is
its fallible partial inverse. -/
structure XCipher where
  Seal : Bytes → Bytes → Bytes → Bytes
  Open : Bytes → Bytes → Bytes → Option Bytes

/-- Errors surfaced by the AEAD. -/
inductive AeadError where
  | plaintextTooLong
  | badKeyLength
  | ciphertextTooShort
  | decryptFailed
deriving DecidableEq, Repr

/-- XChaCha20Poly1305 holds the key. -/
structure XChaCha20Poly1305 where
  Key : Bytes

/-- XChaCha20Poly1305.Encrypt: bound the plaintext length, construct the
cipher (chacha20poly1305.NewX fails exactly when the key is not 32 bytes),
and return the fresh random nonce followed by Seal's output. -/
def XChaCha20Poly1305.Encrypt (newX : Bytes → XCipher) (x : XChaCha20Poly1305)
    (nonce plaintext associatedData : Bytes) : Except AeadError Bytes :=
  if maxInt - chacha20poly1305NonceSizeX - poly1305TagSize < plaintext.length then
    Except.error AeadError.plaintextTooLong
  else if x.Key.length ≠ chacha20poly1305KeySize then
    Except.error AeadError.badKeyLength
  else
    Except.ok (nonce ++ (newX x.Key).Seal nonce plaintext associatedData)

/-- XChaCha20Poly1305.Decrypt: reject ciphertexts shorter than nonce plus
tag, construct the cipher, split off the leading nonce and Open the rest. -/
def XChaCha20Poly1305.Decrypt (newX : Bytes → XCipher) (x : XChaCha20Poly1305)
    (ciphertext associatedData : Bytes) : Except AeadError Bytes :=
  if ciphertext.length < chacha20poly1305NonceSizeX + poly1305TagSize then
    Except.error AeadError.ciphertextTooShort
  else if x.Key.length ≠ chacha20poly1305KeySize then
    Except.error AeadError.badKeyLength
  else
    match (newX x.Key).Open (ciphertext.take chacha20poly1305NonceSizeX)
        (ciphertext.drop chacha20poly1305NonceSizeX) associatedData with
    | none => Except.error AeadError.decryptFailed
    | some pt => Except.ok pt

/-- A sample cipher family: Seal appends a 16-byte tag of zeros, Open strips
it. -/
def sampleNewX : Bytes → XCipher := fun _ =>
  { Seal := fun _ pt _ => pt ++ List.replicate 16 0
    Open := fun _ ct _ =>
      if List.replicate 16 0 <+: ct.reverse then some (ct.take (ct.length - 16))
      else none }

/-- C7: for a 32-byte key, a plaintext within the length bound and any
associated data, Decrypt inverts Encrypt, assuming the underlying cipher's
Seal/Open roundtrip contract and that Seal adds exactly the 16-byte
overhead. -/
theorem xchacha20poly1305_roundtrip (newX : Bytes → XCipher)
    (x : XChaCha20Poly1305) (nonce pt ad : Bytes)
    (hkey : x.Key.length = chacha20poly1305KeySize)
    (hnonce : nonce.length = chacha20poly1305NonceSizeX)
    (hpt : pt.length ≤ maxInt - chacha20poly1305NonceSizeX - poly1305TagSize)
    (hSeal : ((newX x.Key).Seal nonce pt ad).length = pt.length + poly1305TagSize)
    (hopen : (newX x.Key).Open nonce ((newX x.Key).Seal nonce pt ad) ad = some pt) :
    XChaCha20Poly1305.Encrypt newX x nonce pt ad =
      Except.ok (nonce ++ (newX x.Key).Seal nonce pt ad) ∧
    XChaCha20Poly1305.Decrypt newX x (nonce ++ (newX x.Key).Seal nonce pt ad) ad =
      Except.ok pt := by
  have hk : ¬ x.Key.length ≠ chacha20poly1305KeySize := by simp [hkey]
  constructor
  · simp [XChaCha20Poly1305.Encrypt, Nat.not_lt.mpr hpt, hk]
  · have hct : ¬ (nonce ++ (newX x.Key).Seal nonce pt ad).length <
        chacha20poly1305NonceSizeX + poly1305TagSize := by
      rw [List.length_append, hnonce, hSeal]
      simp only [chacha20poly1305NonceSizeX, poly1305TagSize]
      omega
    have htake : (nonce ++ (newX x.Key).Seal nonce pt ad).take
        chacha20poly1305NonceSizeX = nonce := by
      rw [← hnonce]; exact List.take_left _ _
    have hdrop : (nonce ++ (newX x.Key).Seal nonce pt ad).drop
        chacha20poly1305NonceSizeX = (newX x.Key).Seal nonce pt ad := by
      rw [← hnonce]; exact List.drop_left _ _
    unfold XChaCha20Poly1305.Decrypt
    rw [if_neg hct, if_neg hk, htake, hdrop, hopen]

/-- C7 witness: the roundtrip at a concrete key, nonce, plaintext and
associated data under the sample cipher. -/
theorem xchacha20poly1305_roundtrip_witness :
    XChaCha20Poly1305.Encrypt sampleNewX ⟨List.replicate 32 0⟩
      (List.replicate 24 5) [1, 2, 3] [9] =
      Except.ok (List.replicate 24 5 ++
        (sampleNewX (List.replicate 32 0)).Seal (List.replicate 24 5) [1, 2, 3] [9]) ∧
    XChaCha20Poly1305.Decrypt sampleNewX ⟨List.replicate 32 0⟩
      (List.replicate 24 5 ++
        (sampleNewX (List.replicate 32 0)).Seal (List.replicate 24 5) [1, 2, 3] [9]) [9] =
      Except.ok [1, 2, 3] :=
  xchacha20poly1305_roundtrip sampleNewX ⟨List.replicate 32 0⟩
    (List.replicate 24 5) [1, 2, 3] [9]
    (by decide) (by decide) (by decide) (by decide) (by decide)

/-- C10: every ciphertext shorter than 40 bytes (24-byte nonce plus 16-byte
tag) is rejected as too short, for every cipher family and every key: the
check precedes cipher construction, so no cipher is built or invoked. -/
theorem xchacha20poly1305_short_ciphertext (newX : Bytes → XCipher)
    (x : XChaCha20Poly1305) (ct ad : Bytes)
    (h : ct.length < chacha20poly1305NonceSizeX + poly1305TagSize) :
    XChaCha20Poly1305.Decrypt newX x ct ad =
      Except.error AeadError.ciphertextTooShort := by
  simp [XChaCha20Poly1305.Decrypt, h]

/-- C10 witness: a 2-byte ciphertext under the sample cipher and a key of the
wrong length is still rejected as too short. -/
theorem xchacha20poly1305_short_ciphertext_witness :
    XChaCha20Poly1305.Decrypt sampleNewX ⟨[1]⟩ [1, 2] [] =
      Except.error AeadError.ciphertextTooShort :=
  xchacha20poly1305_short_ciphertext sampleNewX ⟨[1]⟩ [1, 2] [] (by decide)

/-! Key-template factories (hybrid, signature and daead packages).  Protobuf
marshalling is external library code, abstracted as a marshal function; a
marshal failure triggers tinkerror.Fail, which aborts the process, modelled
as the error branch of the result. -/

/-- hpkepb.HpkeKem members used by the factories. -/
inductive HpkeKem where
  | DHKEM_P256_HKDF_SHA256
  | DHKEM_X25519_HKDF_SHA256
deriving DecidableEq, Repr

/-- hpkepb.HpkeKdf members used by the factories. -/
inductive HpkeKdf where
  | HKDF_SHA256
deriving DecidableEq, Repr

/-- hpkepb.HpkeAead members used by the factories. -/
inductive HpkeAead where
  | AES_128_GCM
  | AES_256_GCM
  | CHACHA20_POLY1305
deriving DecidableEq, Repr

/-- hpkepb.HpkeParams. -/
structure HpkeParams where
  kem : HpkeKem
  kdf : HpkeKdf
  aead : HpkeAead
deriving DecidableEq, Repr

/-- hpkepb.HpkeKeyFormat. -/
structure HpkeKeyFormat where
  params : HpkeParams
deriving DecidableEq, Repr

/-- commonpb.EllipticCurveType members used by the factories. -/
inductive EllipticCurveType where
  | NIST_P256
  | NIST_P384
  | NIST_P521
deriving DecidableEq, Repr

/-- ecdsapb.EcdsaSignatureEncoding. -/
inductive EcdsaSignatureEncoding where
  | DER
  | IEEE_P1363
deriving DecidableEq, Repr

/-- ecdsapb.EcdsaParams. -/
structure EcdsaParams where
  hashType : HashType
  curve : EllipticCurveType
  encoding : EcdsaSignatureEncoding
deriving DecidableEq, Repr

/-- ecdsapb.EcdsaKeyFormat. -/
structure EcdsaKeyFormat where
  params : EcdsaParams
deriving DecidableEq, Repr

/-- aspb.AesSivKeyFormat. -/
structure AesSivKeyFormat where
  keySize : Nat
deriving DecidableEq, Repr

/-- tinkpb.KeyTemplate. -/
structure KeyTemplate where
  typeUrl : String
  value : Bytes
  outputPrefixType : OutputPrefixType
deriving DecidableEq, Repr

/-- The HPKE private-key type URL (hybrid/hpke package constant). -/
def hpkePrivateKeyTypeURL : String :=
  "type.googleapis.com/google.crypto.tink.HpkePrivateKey"

/-- ecdsaSignerTypeURL. -/
def ecdsaSignerTypeURL : String :=
  "type.googleapis.com/google.crypto.tink.EcdsaPrivateKey"

/-- The AES-SIV type URL used by AESSIVKeyTemplate. -/
def aesSivTypeURL : String :=
  "type.googleapis.com/google.crypto.tink.AesSivKey"

/-- createHPKEKeyTemplate: build the HpkeKeyFormat from the parameters,
marshal it (a failure aborts via tinkerror.Fail, the error branch), and carry
the HPKE type URL, the serialized format and the requested prefix type. -/
def createHPKEKeyTemplate (marshal : HpkeKeyFormat → Option Bytes)
    (kem : HpkeKem) (kdf : HpkeKdf) (aead : HpkeAead)
    (outputPrefixType : OutputPrefixType) : Except String KeyTemplate :=
  match marshal { params := { kem := kem, kdf := kdf, aead := aead } } with
  | none => Except.error "failed to marshal key format"
  | some serializedFormat =>
    Except.ok { typeUrl := hpkePrivateKeyTypeURL, value := serializedFormat,
                outputPrefixType := outputPrefixType }

/-- createECDSAKeyTemplate: likewise for EcdsaKeyFormat and the ECDSA signer
type URL. -/
def createECDSAKeyTemplate (marshal : EcdsaKeyFormat → Option Bytes)
    (hashType : HashType) (curve : EllipticCurveType)
    (encoding : EcdsaSignatureEncoding) (prefixType : OutputPrefixType) :
    Except String KeyTemplate :=
  match marshal { params := { hashType := hashType, curve := curve,
                              encoding := encoding } } with
  | none => Except.error "failed to marshal key format"
  | some serializedFormat =>
    Except.ok { typeUrl := ecdsaSignerTypeURL, value := serializedFormat,
                outputPrefixType := prefixType }

/-- AESSIVKeyTemplate: a fixed AesSivKeyFormat with key size 64, the AES-SIV
type URL and the TINK prefix type. -/
def AESSIVKeyTemplate (marshal : AesSivKeyFormat → Option Bytes) :
    Except String KeyTemplate :=
  match marshal { keySize := 64 } with
  | none => Except.error "failed to marshal key format"
  | some serializedFormat =>
    Except.ok { typeUrl := aesSivTypeURL,
                outputPrefixType := OutputPrefixType.TINK,
                value := serializedFormat }

/-- C8: each factory either aborts (tinkerror.Fail) when its key format does
not serialize, or returns a template carrying the algorithm's type URL, the
serialized format it built, and the requested output prefix type
(AESSIVKeyTemplate always requests TINK). -/
theorem keyTemplate_factory_spec
    (mh : HpkeKeyFormat → Option Bytes) (kem : HpkeKem) (kdf : HpkeKdf)
    (aead : HpkeAead) (p1 : OutputPrefixType)
    (me : EcdsaKeyFormat → Option Bytes) (ht : HashType)
    (cv : EllipticCurveType) (enc : EcdsaSignatureEncoding)
    (p2 : OutputPrefixType) (ms : AesSivKeyFormat → Option Bytes) :
    ((mh { params := { kem := kem, kdf := kdf, aead := aead } } = none →
        ∃ msg, createHPKEKeyTemplate mh kem kdf aead p1 = Except.error msg)
      ∧ ∀ t, createHPKEKeyTemplate mh kem kdf aead p1 = Except.ok t →
          t.typeUrl = hpkePrivateKeyTypeURL ∧ t.outputPrefixType = p1 ∧
          mh { params := { kem := kem, kdf := kdf, aead := aead } } = some t.value)
    ∧ ((me { params := { hashType := ht, curve := cv, encoding := enc } } = none →
        ∃ msg, createECDSAKeyTemplate me ht cv enc p2 = Except.error msg)
      ∧ ∀ t, createECDSAKeyTemplate me ht cv enc p2 = Except.ok t →
          t.typeUrl = ecdsaSignerTypeURL ∧ t.outputPrefixType = p2 ∧
          me { params := { hashType := ht, curve := cv, encoding := enc } }
            = some t.value)
    ∧ ((ms { keySize := 64 } = none →
        ∃ msg, AESSIVKeyTemplate ms = Except.error msg)
      ∧ ∀ t, AESSIVKeyTemplate ms = Except.ok t →
          t.typeUrl = aesSivTypeURL ∧
          t.outputPrefixType = OutputPrefixType.TINK ∧
          ms { keySize := 64 } = some t.value) := by
  refine ⟨⟨?_, ?_⟩, ⟨?_, ?_⟩, ⟨?_, ?_⟩⟩
  · intro h
    exact ⟨"failed to marshal key format", by simp [createHPKEKeyTemplate, h]⟩
  · intro t ht2
    rcases hm : mh { params := { kem := kem, kdf := kdf, aead := aead } } with _ | b
    · simp [createHPKEKeyTemplate, hm] at ht2
    · simp [createHPKEKeyTemplate, hm] at ht2
      subst ht2
      exact ⟨rfl, rfl, rfl⟩
  · intro h
    exact ⟨"failed to marshal key format", by simp [createECDSAKeyTemplate, h]⟩
  · intro t ht2
    rcases hm : me { params := { hashType := ht, curve := cv, encoding := enc } }
      with _ | b
    · simp [createECDSAKeyTemplate, hm] at ht2
    · simp [createECDSAKeyTemplate, hm] at ht2
      subst ht2
      exact ⟨rfl, rfl, rfl⟩
  · intro h
    exact ⟨"failed to marshal key format", by simp [AESSIVKeyTemplate, h]⟩
  · intro t ht2
    rcases hm : ms { keySize := 64 } with _ | b
    · simp [AESSIVKeyTemplate, hm] at ht2
    · simp [AESSIVKeyTemplate, hm] at ht2
      subst ht2
      exact ⟨rfl, rfl, rfl⟩

/-- C8 witness: the HPKE factory under a marshal function that returns [1]
yields a template with the HPKE type URL, value [1] and the requested TINK
prefix type. -/
theorem keyTemplate_factory_spec_witness :
    hpkePrivateKeyTypeURL = hpkePrivateKeyTypeURL ∧
    OutputPrefixType.TINK = OutputPrefixType.TINK ∧
    (some [1] : Option Bytes) = some [1] :=
  (keyTemplate_factory_spec (fun _ => some [1]) HpkeKem.DHKEM_X25519_HKDF_SHA256
      HpkeKdf.HKDF_SHA256 HpkeAead.AES_128_GCM OutputPrefixType.TINK
      (fun _ => some [2]) HashType.SHA256 EllipticCurveType.NIST_P256
      EcdsaSignatureEncoding.DER OutputPrefixType.RAW
      (fun _ => some [3])).1.2
    { typeUrl := hpkePrivateKeyTypeURL, value := [1],
      outputPrefixType := OutputPrefixType.TINK } rfl

end Tink
